import Mathlib

/-!
Verification of the expression-tree core of `parse-tree` (src/src/App.tsx):
the Normalizer (`preprocessExpression`), the Tree Converter (`convertToTree`)
and the boundary entry point (`parseExpression`).  The external expression
parser (the `mathjs` `parse` function) is not part of the repository; it is
modelled from the spec's collaborator contract (§4.2).
-/

namespace ParseTree

/-- ASCII decimal digit, the character class `\d` of the JavaScript regexes
in `preprocessExpression`. -/
def isAsciiDigit (c : Char) : Bool := '0' ≤ c && c ≤ '9'

/-- Model of the JavaScript numeric-string test used by the application
(`isNaN(+value)` in `drawTree`), restricted to the value strings that
actually occur in produced trees: operator symbols and decimal digit
renderings of numeric constants.  A string counts as numeric when it is a
non-empty run of ASCII decimal digits. -/
def parsesAsNumber (s : String) : Bool :=
  !s.toList.isEmpty && s.toList.all isAsciiDigit

/-- The JavaScript regex character class `\s` (whitespace) as used by the
`\s*` parts of the implicit-multiplication rules. -/
def jsWhitespace (c : Char) : Bool :=
  c = ' ' || c = '\t' || c = '\n' || c = '\r' || c = '\x0b' || c = '\x0c' ||
  c = '\u00a0' || c = '\u1680' || ('\u2000' ≤ c && c ≤ '\u200a') ||
  c = '\u2028' || c = '\u2029' || c = '\u202f' || c = '\u205f' ||
  c = '\u3000' || c = '\ufeff'

/-- Decimal digit character for a value below ten (only values below ten
ever reach the default arm's argument `9`, via `n % 10`). -/
def digitChar : Nat → Char
  | 0 => '0'
  | 1 => '1'
  | 2 => '2'
  | 3 => '3'
  | 4 => '4'
  | 5 => '5'
  | 6 => '6'
  | 7 => '7'
  | 8 => '8'
  | _ => '9'

/-- Decimal digit list of a natural number, most significant digit first,
empty for zero.  The first argument is recursion fuel: `n` itself is always
enough fuel because dividing a positive number by ten strictly decreases
it, so the zero-fuel arm is unreachable from `natDigits`. -/
def natDigitsAux : Nat → Nat → List Char
  | _, 0 => []
  | 0, _ + 1 => []
  | fuel + 1, n + 1 => natDigitsAux fuel ((n + 1) / 10) ++ [digitChar ((n + 1) % 10)]

def natDigits (n : Nat) : List Char := natDigitsAux n n

/-- Model of the JavaScript `Number.prototype.toString` on the natural
numbers produced by the parser: plain decimal rendering, `"0"` for zero. -/
def natToString (n : Nat) : String :=
  if n = 0 then "0" else String.mk (natDigits n)

/-- The generic expression-node graph consumed by the Tree Converter,
modelling `mathjs`'s `MathNode` as inspected by `convertToTree`:
`OperatorNode` carries the operator symbol `op` and an `args` field that the
code tests for truthiness (`none` models a missing `args` array), with any
number of operands; `ConstantNode` carries a numeric `value`;
`ParenthesisNode` carries an optional `content` (the code dereferences it
with a non-null assertion); every other node kind is represented by its
`type` string alone, which is all the default arm of the `switch` reads. -/
inductive MathNode : Type where
  | operatorNode (op : String) (args : Option (List MathNode))
  | constantNode (value : Nat)
  | parenthesisNode (content : Option MathNode)
  | otherNode (nodeType : String)
deriving Repr

/-- The canonical output structure (`interface TreeNode` in App.tsx). -/
inductive TreeNode : Type where
  | mk (value : String) (left : Option TreeNode) (right : Option TreeNode)
      (isSubExpression : Bool)
deriving Repr

def TreeNode.value : TreeNode → String
  | .mk v _ _ _ => v

def TreeNode.left : TreeNode → Option TreeNode
  | .mk _ l _ _ => l

def TreeNode.right : TreeNode → Option TreeNode
  | .mk _ _ r _ => r

def TreeNode.isSubExpression : TreeNode → Bool
  | .mk _ _ _ s => s

/-- The two kinds of JavaScript exception `convertToTree` can raise:
the explicit `throw new Error('Unsupported node type: ' + node.type)` of the
default arm, and the runtime `TypeError` raised when a recursive call
receives `undefined` (an out-of-range `args[i]` or a missing parenthesis
`content`) and evaluates `node.type` on it. -/
inductive ConvError : Type where
  | unsupportedNodeType (nodeType : String)
  | typeError
deriving Repr

/-- Shallow embedding of `convertToTree` (App.tsx lines 47–72).  JavaScript
evaluates the `left:` field before the `right:` field, so with a single
operand the conversion of `args[0]` runs (and its error propagates) before
the `TypeError` from `args[1] = undefined`; an empty `args` array is still
truthy, so the guard `operatorNode.args ?` only falls to `undefined`
children when the field itself is absent; operands past `args[1]` are never
read. -/
def convertToTree : MathNode → Bool → Except ConvError TreeNode
  | .operatorNode op none, isSubExpression =>
      .ok (.mk op none none isSubExpression)
  | .operatorNode _ (some []), _ => .error .typeError
  | .operatorNode _ (some [a]), isSubExpression =>
      (convertToTree a isSubExpression).bind fun _ => .error .typeError
  | .operatorNode op (some (a :: b :: _)), isSubExpression => do
      let l ← convertToTree a isSubExpression
      let r ← convertToTree b isSubExpression
      .ok (.mk op (some l) (some r) isSubExpression)
  | .constantNode v, isSubExpression =>
      .ok (.mk (natToString v) none none isSubExpression)
  | .parenthesisNode none, _ => .error .typeError
  | .parenthesisNode (some c), _ => convertToTree c true
  | .otherNode t, _ => .error (.unsupportedNodeType t)

/-- One global pass of the JavaScript regex replace
`.replace(/(\d+)(\s*\()/g, '$1 * $2')` over the character list: at each
position, a maximal run of ASCII digits followed by optional whitespace and
a literal `(` is rewritten to `<digits> * <spaces>(`, scanning resuming
after the consumed `(`; otherwise the character is kept and scanning moves
one position right.  Backtracking never helps this pattern, so the greedy
scan is exact.  The first argument is recursion fuel: every step consumes
at least one character, so the input length is always enough fuel and the
zero-fuel arm is unreachable from `insertMulAfterDigits`. -/
def insertMulAfterDigitsAux : Nat → List Char → List Char
  | 0, l => l
  | _ + 1, [] => []
  | fuel + 1, c :: cs =>
      if isAsciiDigit c then
        let ds := cs.takeWhile isAsciiDigit
        let sp := (cs.dropWhile isAsciiDigit).takeWhile jsWhitespace
        match (cs.dropWhile isAsciiDigit).dropWhile jsWhitespace with
        | '(' :: rest =>
            c :: ds ++ ' ' :: '*' :: ' ' :: sp ++ '(' :: insertMulAfterDigitsAux fuel rest
        | _ => c :: insertMulAfterDigitsAux fuel cs
      else c :: insertMulAfterDigitsAux fuel cs

def insertMulAfterDigits (l : List Char) : List Char :=
  insertMulAfterDigitsAux l.length l

/-- One global pass of the JavaScript regex replace
`.replace(/(\))(\s*\d+)/g, '$1 * $2')` over the character list: a `)`
followed by optional whitespace and a maximal non-empty run of ASCII digits
is rewritten to `) * <spaces><digits>`, scanning resuming after the
consumed digits.  Fuel as in `insertMulAfterDigitsAux`. -/
def insertMulAfterParenAux : Nat → List Char → List Char
  | 0, l => l
  | _ + 1, [] => []
  | fuel + 1, c :: cs =>
      if c = ')' then
        let sp := cs.takeWhile jsWhitespace
        match (cs.dropWhile jsWhitespace).takeWhile isAsciiDigit with
        | [] => c :: insertMulAfterParenAux fuel cs
        | d :: ds =>
            c :: ' ' :: '*' :: ' ' :: sp ++ d :: ds ++
              insertMulAfterParenAux fuel ((cs.dropWhile jsWhitespace).dropWhile isAsciiDigit)
      else c :: insertMulAfterParenAux fuel cs

def insertMulAfterParen (l : List Char) : List Char :=
  insertMulAfterParenAux l.length l

/-- A global single-character regex replace such as `.replace(/\{/g, '(')`:
every occurrence of `a` becomes `b`. -/
def replaceChar (a b : Char) (l : List Char) : List Char :=
  l.map fun c => if c = a then b else c

/-- Shallow embedding of `preprocessExpression` (App.tsx lines 74–83): the
seven chained `.replace` calls in source order — bracket unification, the
two implicit-multiplication insertions, then the en-dash substitution. -/
def preprocessExpression (expr : String) : String :=
  let s1 := replaceChar '{' '(' expr.toList
  let s2 := replaceChar '[' '(' s1
  let s3 := replaceChar '}' ')' s2
  let s4 := replaceChar ']' ')' s3
  let s5 := insertMulAfterDigits s4
  let s6 := insertMulAfterParen s5
  let s7 := replaceChar '–' '-' s6
  String.mk s7

/-- Modelled from the spec: the token alphabet of the external expression
parser's input language (§4.2/§GLOSSARY) — numerals, the binary operators
`+ - * / ^`, and parentheses. -/
inductive Token : Type where
  | num (value : Nat)
  | op (symbol : Char)
  | lparen
  | rparen
deriving Repr

/-- Numeric value of a run of decimal digit characters. -/
def digitsToNat (l : List Char) : Nat :=
  l.foldl (fun a c => 10 * a + (c.toNat - 48)) 0

/-- Modelled from the spec: the external parser's tokenizer.  Whitespace is
skipped, digit runs become numeral tokens, the five operator characters and
the two parentheses become their tokens, and any other character is an
unknown token, a parse failure (§4.2).  Fuel as in
`insertMulAfterDigitsAux`: the input length plus one always suffices. -/
def tokenizeAux : Nat → List Char → Except String (List Token)
  | 0, _ => .error "Tokenizer fuel exhausted"
  | _ + 1, [] => .ok []
  | fuel + 1, c :: cs =>
      if jsWhitespace c then tokenizeAux fuel cs
      else if isAsciiDigit c then
        (tokenizeAux fuel (cs.dropWhile isAsciiDigit)).map
          fun ts => .num (digitsToNat (c :: cs.takeWhile isAsciiDigit)) :: ts
      else if c = '+' || c = '-' || c = '*' || c = '/' || c = '^' then
        (tokenizeAux fuel cs).map fun ts => .op c :: ts
      else if c = '(' then (tokenizeAux fuel cs).map fun ts => .lparen :: ts
      else if c = ')' then (tokenizeAux fuel cs).map fun ts => .rparen :: ts
      else .error ("Unknown token " ++ String.mk [c])

def tokenize (l : List Char) : Except String (List Token) :=
  tokenizeAux (l.length + 1) l

/-- Modelled from the spec: conventional operator precedence,
`^` above `* /` above `+ -` (§4.2); zero marks a non-operator. -/
def prec : Char → Nat
  | '^' => 3
  | '*' => 2
  | '/' => 2
  | '+' => 1
  | '-' => 1
  | _ => 0

/-- Modelled from the spec: exponentiation is the one right-associative
operator (§4.2). -/
def rightAssoc (c : Char) : Bool := c = '^'

mutual

/-- Modelled from the spec: an operand position of the external parser — a
numeral, or a parenthesized sub-expression which becomes a grouping node
wrapping its content (§3, §4.2).  An operator or closing parenthesis in
operand position (empty operand, two consecutive operators) and a missing
closing parenthesis are parse failures. -/
def parsePrimary : Nat → List Token → Except String (MathNode × List Token)
  | 0, _ => .error "Parser fuel exhausted"
  | _ + 1, [] => .error "Unexpected end of expression"
  | _ + 1, Token.num v :: ts => .ok (MathNode.constantNode v, ts)
  | fuel + 1, Token.lparen :: ts =>
      (parseFrom fuel 0 ts).bind fun r =>
        match r.2 with
        | Token.rparen :: rest => .ok (MathNode.parenthesisNode (some r.1), rest)
        | _ => .error "Expected closing parenthesis"
  | _ + 1, Token.op c :: _ => .error ("Unexpected operator " ++ String.mk [c])
  | _ + 1, Token.rparen :: _ => .error "Unexpected closing parenthesis"

/-- Modelled from the spec: precedence-climbing parse of an expression from
a minimum binding power, producing binary-only operator nodes (§4.2). -/
def parseFrom : Nat → Nat → List Token → Except String (MathNode × List Token)
  | 0, _, _ => .error "Parser fuel exhausted"
  | fuel + 1, minPrec, ts =>
      (parsePrimary fuel ts).bind fun r => parseLoop fuel minPrec r.1 r.2

/-- Modelled from the spec: the operator loop of precedence climbing —
while the next token is an operator binding at least as tightly as
`minPrec`, consume it and a right-hand side parsed at the next binding
power (one higher for left-associative operators, equal for the
right-associative `^`), folding into a binary operator node (§4.2). -/
def parseLoop : Nat → Nat → MathNode → List Token → Except String (MathNode × List Token)
  | 0, _, _, _ => .error "Parser fuel exhausted"
  | fuel + 1, minPrec, lhs, Token.op c :: ts =>
      if 0 < prec c && minPrec ≤ prec c then
        (parseFrom fuel (if rightAssoc c then prec c else prec c + 1) ts).bind
          fun r =>
            parseLoop fuel minPrec (MathNode.operatorNode (String.mk [c]) (some [lhs, r.1])) r.2
      else .ok (lhs, Token.op c :: ts)
  | _ + 1, _, lhs, ts => .ok (lhs, ts)

end

/-- Modelled from the spec: the external expression parser (the black-box
collaborator of §4.2, `mathjs`'s `parse` in App.tsx line 33): tokenize,
parse one whole expression with conventional precedence and associativity,
and fail on malformed input — unknown tokens, unbalanced parentheses,
empty operand positions, consecutive operators, or trailing tokens. -/
def parse (expression : String) : Except String MathNode :=
  (tokenize expression.toList).bind fun toks =>
    (parseFrom (2 * toks.length + 4) 0 toks).bind fun r =>
      match r.2 with
      | [] => .ok r.1
      | _ => .error "Unexpected token after expression"

/-- Shallow embedding of `parseExpression` (App.tsx lines 31–39): run the
external parser, convert the node graph, and catch every raised error at
the boundary, collapsing it to `null` (the `catch` logs the diagnostic and
returns `null`). -/
def parseExpression (expression : String) : Option TreeNode :=
  match parse expression with
  | .error _ => none
  | .ok node =>
      match convertToTree node false with
      | .error _ => none
      | .ok t => some t

/-- The binary-only shape invariant of §3/§8: a node either has both
children and a non-numeric value, or no children and a numeric value. -/
def binaryOnly : TreeNode → Bool
  | .mk v (some l) (some r) _ => !parsesAsNumber v && binaryOnly l && binaryOnly r
  | .mk v none none _ => parsesAsNumber v
  | .mk _ _ _ _ => false

/-- The external-parser output contract of §3/§4.2: operator nodes carry a
non-numeric operator symbol and exactly two operands, grouping nodes carry
a wrapped sub-node, and only the kinds {Operator, Constant, Grouping}
occur. -/
def wellFormed : MathNode → Bool
  | .operatorNode op (some [a, b]) => !parsesAsNumber op && wellFormed a && wellFormed b
  | .operatorNode _ _ => false
  | .constantNode _ => true
  | .parenthesisNode (some c) => wellFormed c
  | .parenthesisNode none => false
  | .otherNode _ => false

mutual

/-- Every node of the tree, the root included, has `isSubExpression`
set. -/
def allFlagsTrue : TreeNode → Bool
  | .mk _ l r s => s && optAllFlagsTrue l && optAllFlagsTrue r

def optAllFlagsTrue : Option TreeNode → Bool
  | none => true
  | some t => allFlagsTrue t

end

mutual

/-- Downward monotonicity of `isSubExpression`: below any node whose flag
is set, every node's flag is set. -/
def flagMonotone : TreeNode → Bool
  | .mk _ l r s =>
      (!s || (optAllFlagsTrue l && optAllFlagsTrue r)) &&
        optFlagMonotone l && optFlagMonotone r

def optFlagMonotone : Option TreeNode → Bool
  | none => true
  | some t => flagMonotone t

end

mutual

/-- Some node of kind outside {Operator, Constant, Grouping} occurs in the
graph. -/
def containsOther : MathNode → Bool
  | .operatorNode _ none => false
  | .operatorNode _ (some l) => containsOtherList l
  | .constantNode _ => false
  | .parenthesisNode none => false
  | .parenthesisNode (some c) => containsOther c
  | .otherNode _ => true

def containsOtherList : List MathNode → Bool
  | [] => false
  | n :: ns => containsOther n || containsOtherList ns

end

/-! Helper lemmas about the numeric rendering and the operator symbols. -/

theorem isAsciiDigit_digitChar (d : Nat) : isAsciiDigit (digitChar d) = true := by
  match d with
  | 0 => decide
  | 1 => decide
  | 2 => decide
  | 3 => decide
  | 4 => decide
  | 5 => decide
  | 6 => decide
  | 7 => decide
  | 8 => decide
  | n + 9 => rfl

theorem natDigitsAux_succ (fuel n : Nat) :
    natDigitsAux (fuel + 1) (n + 1) =
      natDigitsAux fuel ((n + 1) / 10) ++ [digitChar ((n + 1) % 10)] := rfl

theorem natDigitsAux_all_digits (fuel n : Nat) :
    (natDigitsAux fuel n).all isAsciiDigit = true := by
  induction fuel generalizing n with
  | zero =>
      cases n with
      | zero => rfl
      | succ m => rfl
  | succ fuel ih =>
      cases n with
      | zero => rfl
      | succ m =>
          rw [natDigitsAux_succ, List.all_append]
          simp [ih, isAsciiDigit_digitChar]

theorem parsesAsNumber_natToString (n : Nat) :
    parsesAsNumber (natToString n) = true := by
  cases n with
  | zero => decide
  | succ m =>
      rw [natToString, if_neg (Nat.succ_ne_zero m)]
      show (!(natDigits (m + 1)).isEmpty && (natDigits (m + 1)).all isAsciiDigit) = true
      have hall := natDigitsAux_all_digits (m + 1) (m + 1)
      simp only [natDigits, natDigitsAux_succ, List.all_append] at hall ⊢
      simp_all [List.isEmpty_iff]

theorem not_digit_of_prec_pos (c : Char) (h : 0 < prec c) :
    parsesAsNumber (String.mk [c]) = false := by
  show (!([c].isEmpty) && [c].all isAsciiDigit) = false
  unfold prec at h
  split at h
  all_goals simp_all
  all_goals decide

/-! Reduction lemmas for `Except` sequencing, in both the `>>=` and the
`.bind` spellings that appear in the embedded definitions. -/

theorem except_ok_bind {ε α β : Type} (a : α) (g : α → Except ε β) :
    (Except.ok a : Except ε α) >>= g = g a := rfl

theorem except_error_bind {ε α β : Type} (e : ε) (g : α → Except ε β) :
    (Except.error e : Except ε α) >>= g = Except.error e := rfl

theorem except_bind_ok {ε α β : Type} (a : α) (g : α → Except ε β) :
    (Except.ok a : Except ε α).bind g = g a := rfl

theorem except_bind_error {ε α β : Type} (e : ε) (g : α → Except ε β) :
    (Except.error e : Except ε α).bind g = Except.error e := rfl

/-- Core of the binary-only invariant: converting any node that satisfies
the external-parser contract either fails or yields a tree in which
operator-valued nodes have both children and numeric-valued nodes have
none. -/
theorem convertToTree_binaryOnly (n : MathNode) (f : Bool) (t : TreeNode)
    (hwf : wellFormed n = true) (hok : convertToTree n f = .ok t) :
    binaryOnly t = true := by
  induction n, f using convertToTree.induct generalizing t with
  | case1 op f => simp [wellFormed] at hwf
  | case2 op f => simp [wellFormed] at hwf
  | case3 op a f ih => simp [wellFormed] at hwf
  | case4 op a b tail f iha ihb =>
      cases tail with
      | cons x xs => simp [wellFormed] at hwf
      | nil =>
          simp only [wellFormed, Bool.and_eq_true, Bool.not_eq_true'] at hwf
          obtain ⟨⟨hop, ha2⟩, hb2⟩ := hwf
          simp only [convertToTree] at hok
          cases ha : convertToTree a f with
          | error e => rw [ha] at hok; simp [except_error_bind] at hok
          | ok l =>
              rw [ha, except_ok_bind] at hok
              cases hb : convertToTree b f with
              | error e => rw [hb] at hok; simp [except_error_bind] at hok
              | ok r =>
                  rw [hb, except_ok_bind] at hok
                  cases hok
                  simp [binaryOnly, iha l ha2 ha, ihb r hb2 hb, hop]
  | case5 v f =>
      cases hok
      simp [binaryOnly, parsesAsNumber_natToString]
  | case6 f => simp [wellFormed] at hwf
  | case7 c f ih =>
      simp only [wellFormed] at hwf
      exact ih t hwf hok
  | case8 s f => simp [wellFormed] at hwf

/-- Flag propagation: any successful conversion yields a tree whose
`isSubExpression` flags are downward monotone, and a conversion started
with the flag already set yields a tree whose flags are all set. -/
theorem convertToTree_flags (n : MathNode) (f : Bool) (t : TreeNode)
    (hok : convertToTree n f = .ok t) :
    flagMonotone t = true ∧ (f = true → allFlagsTrue t = true) := by
  induction n, f using convertToTree.induct generalizing t with
  | case1 op f =>
      cases hok
      refine ⟨by cases f <;> simp [flagMonotone, optFlagMonotone, optAllFlagsTrue], ?_⟩
      intro hf
      subst hf
      simp [allFlagsTrue, optAllFlagsTrue]
  | case2 op f => exact Except.noConfusion hok
  | case3 op a f ih =>
      simp only [convertToTree] at hok
      cases ha : convertToTree a f with
      | error e => rw [ha, except_bind_error] at hok; exact Except.noConfusion hok
      | ok l => rw [ha, except_bind_ok] at hok; exact Except.noConfusion hok
  | case4 op a b tail f iha ihb =>
      simp only [convertToTree] at hok
      cases ha : convertToTree a f with
      | error e => rw [ha] at hok; simp [except_error_bind] at hok
      | ok l =>
          rw [ha, except_ok_bind] at hok
          cases hb : convertToTree b f with
          | error e => rw [hb] at hok; simp [except_error_bind] at hok
          | ok r =>
              rw [hb, except_ok_bind] at hok
              cases hok
              obtain ⟨hml, hal⟩ := iha l ha
              obtain ⟨hmr, har⟩ := ihb r hb
              constructor
              · cases f with
                | false => simp [flagMonotone, optFlagMonotone, optAllFlagsTrue, hml, hmr]
                | true =>
                    simp [flagMonotone, optFlagMonotone, optAllFlagsTrue, hml, hmr,
                      hal rfl, har rfl]
              · intro hf
                subst hf
                simp [allFlagsTrue, optAllFlagsTrue, hal rfl, har rfl]
  | case5 v f =>
      cases hok
      refine ⟨by simp [flagMonotone, optFlagMonotone, optAllFlagsTrue], ?_⟩
      intro hf
      subst hf
      simp [allFlagsTrue, optAllFlagsTrue]
  | case6 f => exact Except.noConfusion hok
  | case7 c f ih =>
      exact ⟨(ih t hok).1, fun _ => (ih t hok).2 rfl⟩
  | case8 s f => exact Except.noConfusion hok

/-- The `'Unsupported node type'` error is only raised when the conversion
actually reaches a node of a kind outside {Operator, Constant, Grouping}
somewhere in the graph. -/
theorem convertToTree_unsupported_containsOther (n : MathNode) (f : Bool) (s : String)
    (herr : convertToTree n f = .error (.unsupportedNodeType s)) :
    containsOther n = true := by
  induction n, f using convertToTree.induct with
  | case1 op f => exact Except.noConfusion herr
  | case2 op f => simp [convertToTree] at herr
  | case3 op a f ih =>
      simp only [convertToTree] at herr
      cases ha : convertToTree a f with
      | error e =>
          rw [ha, except_bind_error] at herr
          cases herr
          simp [containsOther, containsOtherList, ih ha]
      | ok l => rw [ha, except_bind_ok] at herr; simp at herr
  | case4 op a b tail f iha ihb =>
      simp only [convertToTree] at herr
      cases ha : convertToTree a f with
      | error e =>
          rw [ha, except_error_bind] at herr
          cases herr
          simp [containsOther, containsOtherList, iha ha]
      | ok l =>
          rw [ha, except_ok_bind] at herr
          cases hb : convertToTree b f with
          | error e =>
              rw [hb, except_error_bind] at herr
              cases herr
              simp [containsOther, containsOtherList, ihb hb]
          | ok r => rw [hb, except_ok_bind] at herr; exact Except.noConfusion herr
  | case5 v f => exact Except.noConfusion herr
  | case6 f => simp [convertToTree] at herr
  | case7 c f ih => simp [containsOther, ih herr]
  | case8 t0 f => simp [containsOther]

/-- Every node graph the modelled external parser returns satisfies the
contract `wellFormed`, at every fuel level and for all three mutually
recursive entry points. -/
theorem parser_wellFormed (fuel : Nat) :
    (∀ ts n rest, parsePrimary fuel ts = .ok (n, rest) → wellFormed n = true) ∧
    (∀ m ts n rest, parseFrom fuel m ts = .ok (n, rest) → wellFormed n = true) ∧
    (∀ m lhs ts n rest, wellFormed lhs = true →
        parseLoop fuel m lhs ts = .ok (n, rest) → wellFormed n = true) := by
  induction fuel with
  | zero =>
      exact ⟨fun ts n rest h => Except.noConfusion h,
        fun m ts n rest h => Except.noConfusion h,
        fun m lhs ts n rest hwf h => Except.noConfusion h⟩
  | succ fuel ih =>
      obtain ⟨ihP, ihF, ihL⟩ := ih
      refine ⟨?_, ?_, ?_⟩
      · intro ts n rest h
        cases ts with
        | nil => exact Except.noConfusion h
        | cons tk ts' =>
            cases tk with
            | num v =>
                cases h
                simp [wellFormed]
            | op c => exact Except.noConfusion h
            | lparen =>
                simp only [parsePrimary] at h
                cases hf : parseFrom fuel 0 ts' with
                | error e => rw [hf, except_bind_error] at h; exact Except.noConfusion h
                | ok r =>
                    rw [hf, except_bind_ok] at h
                    obtain ⟨inner, rest'⟩ := r
                    cases rest' with
                    | nil => exact Except.noConfusion h
                    | cons tk2 rest2 =>
                        cases tk2 with
                        | num v => exact Except.noConfusion h
                        | op c => exact Except.noConfusion h
                        | lparen => exact Except.noConfusion h
                        | rparen =>
                            cases h
                            simp only [wellFormed]
                            exact ihF 0 ts' inner _ hf
            | rparen => exact Except.noConfusion h
      · intro m ts n rest h
        simp only [parseFrom] at h
        cases hp : parsePrimary fuel ts with
        | error e => rw [hp, except_bind_error] at h; exact Except.noConfusion h
        | ok r =>
            rw [hp, except_bind_ok] at h
            exact ihL m r.1 r.2 n rest (ihP ts r.1 r.2 (by rw [hp])) h
      · intro m lhs ts n rest hwf h
        cases ts with
        | nil => cases h; exact hwf
        | cons tk ts' =>
            cases tk with
            | num v => cases h; exact hwf
            | lparen => cases h; exact hwf
            | rparen => cases h; exact hwf
            | op c =>
                simp only [parseLoop] at h
                by_cases hc : (0 < prec c && m ≤ prec c) = true
                · rw [if_pos hc] at h
                  cases hf : parseFrom fuel (if rightAssoc c then prec c else prec c + 1) ts'
                      with
                  | error e => rw [hf, except_bind_error] at h; exact Except.noConfusion h
                  | ok r =>
                      rw [hf, except_bind_ok] at h
                      simp only [Bool.and_eq_true, decide_eq_true_eq] at hc
                      have hrhs : wellFormed r.1 = true :=
                        ihF (if rightAssoc c then prec c else prec c + 1) ts' r.1 r.2 hf
                      have hnode : wellFormed
                          (MathNode.operatorNode (String.mk [c]) (some [lhs, r.1])) = true := by
                        simp [wellFormed, hwf, hrhs, not_digit_of_prec_pos c hc.1]
                      exact ihL m _ r.2 n rest hnode h
                · rw [if_neg hc] at h
                  cases h
                  exact hwf

/-- Every node graph returned by the modelled `parse` satisfies the
external-parser contract of §3/§4.2. -/
theorem parse_wellFormed (s : String) (n : MathNode) (h : parse s = .ok n) :
    wellFormed n = true := by
  simp only [parse] at h
  cases ht : tokenize s.toList with
  | error e => rw [ht, except_bind_error] at h; exact Except.noConfusion h
  | ok toks =>
      rw [ht, except_bind_ok] at h
      cases hf : parseFrom (2 * toks.length + 4) 0 toks with
      | error e => rw [hf, except_bind_error] at h; exact Except.noConfusion h
      | ok r =>
          rw [hf, except_bind_ok] at h
          obtain ⟨node, rest⟩ := r
          cases rest with
          | nil =>
              cases h
              exact (parser_wellFormed _).2.1 0 toks _ _ hf
          | cons x xs => exact Except.noConfusion h

/-! Lemmas for the Normalizer: on digit-free input both
implicit-multiplication passes are the identity, and single-character
replaces fix any list avoiding the replaced character. -/

theorem map_id_of_fix {α : Type} (f : α → α) :
    ∀ (l : List α), (∀ c ∈ l, f c = c) → l.map f = l
  | [], _ => rfl
  | x :: xs, h => by
      rw [List.map_cons, h x (List.mem_cons_self x xs),
        map_id_of_fix f xs (fun c hc => h c (List.mem_cons_of_mem _ hc))]

theorem replaceChar_id (a b : Char) (l : List Char) (h : ∀ c ∈ l, ¬c = a) :
    replaceChar a b l = l :=
  map_id_of_fix _ l (fun c hc => if_neg (h c hc))

theorem takeWhile_nil_of_false (p : Char → Bool) :
    ∀ (xs : List Char), (∀ c ∈ xs, p c = false) → xs.takeWhile p = []
  | [], _ => rfl
  | x :: xs, h => by simp [List.takeWhile_cons, h x (List.mem_cons_self x xs)]

theorem insertMulAfterDigitsAux_id (fuel : Nat) :
    ∀ (l : List Char), (∀ c ∈ l, isAsciiDigit c = false) →
      insertMulAfterDigitsAux fuel l = l := by
  induction fuel with
  | zero => intro l _; rfl
  | succ fuel ih =>
      intro l h
      cases l with
      | nil => rfl
      | cons c cs =>
          simp only [insertMulAfterDigitsAux, h c (List.mem_cons_self c cs)]
          simp only [Bool.false_eq_true, if_false]
          rw [ih cs (fun x hx => h x (List.mem_cons_of_mem _ hx))]

theorem insertMulAfterDigits_id (l : List Char)
    (h : ∀ c ∈ l, isAsciiDigit c = false) : insertMulAfterDigits l = l :=
  insertMulAfterDigitsAux_id l.length l h

theorem insertMulAfterParenAux_id (fuel : Nat) :
    ∀ (l : List Char), (∀ c ∈ l, isAsciiDigit c = false) →
      insertMulAfterParenAux fuel l = l := by
  induction fuel with
  | zero => intro l _; rfl
  | succ fuel ih =>
      intro l h
      cases l with
      | nil => rfl
      | cons c cs =>
          have hcs : ∀ x ∈ cs, isAsciiDigit x = false :=
            fun x hx => h x (List.mem_cons_of_mem _ hx)
          by_cases hc : c = ')'
          · subst hc
            have htw : (cs.dropWhile jsWhitespace).takeWhile isAsciiDigit = [] :=
              takeWhile_nil_of_false _ _
                (fun x hx => hcs x ((List.dropWhile_sublist _).subset hx))
            simp only [insertMulAfterParenAux, if_pos rfl, htw]
            rw [ih cs hcs]
            simp
          · simp only [insertMulAfterParenAux, if_neg hc]
            rw [ih cs hcs]

theorem insertMulAfterParen_id (l : List Char)
    (h : ∀ c ∈ l, isAsciiDigit c = false) : insertMulAfterParen l = l :=
  insertMulAfterParenAux_id l.length l h

/-- On a list made only of the two plain parentheses the whole Normalizer
is the identity. -/
theorem preprocess_fixes_paren_list (l : List Char)
    (hl : ∀ c ∈ l, c = '(' ∨ c = ')') :
    preprocessExpression (String.mk l) = String.mk l := by
  have hnd : ∀ c ∈ l, isAsciiDigit c = false := by
    intro c hc
    rcases hl c hc with rfl | rfl <;> decide
  have e1 : replaceChar '{' '(' l = l :=
    replaceChar_id _ _ _ (by intro c hc; rcases hl c hc with rfl | rfl <;> decide)
  have e2 : replaceChar '[' '(' l = l :=
    replaceChar_id _ _ _ (by intro c hc; rcases hl c hc with rfl | rfl <;> decide)
  have e3 : replaceChar '}' ')' l = l :=
    replaceChar_id _ _ _ (by intro c hc; rcases hl c hc with rfl | rfl <;> decide)
  have e4 : replaceChar ']' ')' l = l :=
    replaceChar_id _ _ _ (by intro c hc; rcases hl c hc with rfl | rfl <;> decide)
  have e7 : replaceChar '–' '-' l = l :=
    replaceChar_id _ _ _ (by intro c hc; rcases hl c hc with rfl | rfl <;> decide)
  simp only [preprocessExpression]
  rw [show (String.mk l).toList = l from rfl, e1, e2, e3, e4,
    insertMulAfterDigits_id l hnd, insertMulAfterParen_id l hnd, e7]

/-! The claims. -/

/-- C1: for every TreeNode in any tree produced by the Tree Converter from
an input satisfying the external-parser contract, either the value does not
parse as a number and both children are present, or the value parses as a
number and neither child is present — never a mixed state.  Stated both for
`convertToTree` on any contract-satisfying node graph and for the full
`parseExpression` pipeline. -/
theorem claim1_binary_only_invariant :
    (∀ (n : MathNode) (f : Bool) (t : TreeNode),
        wellFormed n = true → convertToTree n f = .ok t → binaryOnly t = true) ∧
    (∀ (s : String) (t : TreeNode), parseExpression s = some t → binaryOnly t = true) := by
  refine ⟨fun n f t hwf hok => convertToTree_binaryOnly n f t hwf hok, ?_⟩
  intro s t h
  cases hp : parse s with
  | error e =>
      rw [show parseExpression s = none from by unfold parseExpression; rw [hp]] at h
      exact Option.noConfusion h
  | ok node =>
      cases hcv : convertToTree node false with
      | error e =>
          rw [show parseExpression s = none from by
            unfold parseExpression
            rw [hp]
            show (match convertToTree node false with
              | Except.error _ => none
              | Except.ok t0 => some t0) = none
            rw [hcv]] at h
          exact Option.noConfusion h
      | ok tr =>
          rw [show parseExpression s = some tr from by
            unfold parseExpression
            rw [hp]
            show (match convertToTree node false with
              | Except.error _ => none
              | Except.ok t0 => some t0) = some tr
            rw [hcv]] at h
          cases h
          exact convertToTree_binaryOnly node false _ (parse_wellFormed s node hp) hcv

/-- Witness for C1: the pipeline on `"1+2"` produces a concrete tree, and
the theorem applied to it yields the binary-only invariant. -/
theorem claim1_binary_only_invariant_witness :
    parseExpression "1+2" = some (.mk "+" (some (.mk "1" none none false))
      (some (.mk "2" none none false)) false) ∧
    binaryOnly (.mk "+" (some (.mk "1" none none false))
      (some (.mk "2" none none false)) false) = true :=
  ⟨rfl, claim1_binary_only_invariant.2 "1+2" _ rfl⟩

/-- C2 counterexample: the claim says an operator node with fewer or more
than two operands raises the "unsupported node type" error rather than
producing a tree.  In the code, an operator node with three operands
converts successfully to a tree (the third operand is silently dropped),
and an operator node with one operand raises the runtime `TypeError` from
recursing into the missing `args[1]`, not the unsupported-node error. -/
theorem claim2_counterexample :
    convertToTree (.operatorNode "+" (some [.constantNode 1, .constantNode 2,
        .constantNode 3])) false
      = .ok (.mk "+" (some (.mk "1" none none false))
          (some (.mk "2" none none false)) false) ∧
    convertToTree (.operatorNode "-" (some [.constantNode 5])) false
      = .error .typeError :=
  ⟨rfl, rfl⟩

/-- C2 amended: the Tree Converter raises the "unsupported node type" error
when given a node of kind outside {Operator, Constant, Grouping}, and only
when conversion reaches such a node; an operator node with no operands or
one (convertible) operand instead fails with a `TypeError`, and an operator
node with more than two operands is converted from its first two operands
alone. -/
theorem claim2_unsupported_node_error_amended :
    (∀ (t : String) (f : Bool),
        convertToTree (.otherNode t) f = .error (.unsupportedNodeType t)) ∧
    (∀ (op : String) (f : Bool),
        convertToTree (.operatorNode op (some [])) f = .error .typeError) ∧
    (∀ (op : String) (a : MathNode) (f : Bool) (ta : TreeNode),
        convertToTree a f = .ok ta →
        convertToTree (.operatorNode op (some [a])) f = .error .typeError) ∧
    (∀ (op : String) (a b : MathNode) (rest : List MathNode) (f : Bool),
        convertToTree (.operatorNode op (some (a :: b :: rest))) f =
          convertToTree (.operatorNode op (some [a, b])) f) ∧
    (∀ (n : MathNode) (f : Bool) (s : String),
        convertToTree n f = .error (.unsupportedNodeType s) →
        containsOther n = true) := by
  refine ⟨fun t f => rfl, fun op f => rfl, ?_, fun op a b rest f => rfl,
    fun n f s h => convertToTree_unsupported_containsOther n f s h⟩
  intro op a f ta h
  show (convertToTree a f).bind
      (fun _ => (.error .typeError : Except ConvError TreeNode)) = .error .typeError
  rw [h]
  rfl

/-- Witness for C2 amended: the single-operand and the unsupported-kind
conjuncts evaluated at concrete nodes. -/
theorem claim2_unsupported_node_error_amended_witness :
    convertToTree (.operatorNode "-" (some [.constantNode 5])) false
      = .error .typeError ∧
    containsOther (.parenthesisNode (some (.otherNode "FunctionNode"))) = true :=
  ⟨claim2_unsupported_node_error_amended.2.2.1 "-" (.constantNode 5) false
      (.mk "5" none none false) rfl,
    claim2_unsupported_node_error_amended.2.2.2.2
      (.parenthesisNode (some (.otherNode "FunctionNode"))) false "FunctionNode" rfl⟩

/-- C3: converting a Grouping (parenthesis) node recurses into the wrapped
sub-node with the `isSubExpression` flag forced to `true` and returns that
result directly, whatever the incoming flag was — a grouping node never
contributes a TreeNode of its own. -/
theorem claim3_grouping_transparent (c : MathNode) (f : Bool) :
    convertToTree (.parenthesisNode (some c)) f = convertToTree c true := rfl

/-- C4: the Normalizer rewrites `"2(3+4)"` to exactly `"2 * (3+4)"`, and
the full pipeline on that input produces the tree with root `"*"`, left
child `"2"`, and right subtree rooted at `"+"` with `isSubExpression` true
and children `"3"` and `"4"`. -/
theorem claim4_scenario2 :
    preprocessExpression "2(3+4)" = "2 * (3+4)" ∧
    parseExpression (preprocessExpression "2(3+4)") =
      some (.mk "*" (some (.mk "2" none none false))
        (some (.mk "+" (some (.mk "3" none none true))
          (some (.mk "4" none none true)) true))
        false) :=
  ⟨rfl, rfl⟩

/-- C5 counterexample: the Normalizer output for `"[1+2]*{3+4}"` is not the
spec's `"(1+2) * (3+4)"` — no rule inserts spaces around a pre-existing
`*`. -/
theorem claim5_counterexample :
    preprocessExpression "[1+2]*{3+4}" ≠ "(1+2) * (3+4)" := by decide

/-- C5 amended: the Normalizer rewrites `"[1+2]*{3+4}"` to exactly
`"(1+2)*(3+4)"` — brackets and braces are replaced by parentheses, and the
digit/parenthesis rules do not fire across the explicit `*`. -/
theorem claim5_scenario5_amended :
    preprocessExpression "[1+2]*{3+4}" = "(1+2)*(3+4)" := rfl

/-- C6: whenever the expression parser fails, the boundary catch collapses
the failure to the no-tree outcome `none`; no partial tree escapes. -/
theorem claim6_parse_failure_no_tree (s : String) (e : String)
    (h : parse s = .error e) : parseExpression s = none := by
  unfold parseExpression
  rw [h]

/-- Witness for C6: the unbalanced input `"(2+"` makes the parser fail, and
the theorem applied there yields the no-tree outcome. -/
theorem claim6_parse_failure_no_tree_witness :
    parse "(2+" = .error "Unexpected end of expression" ∧
    parseExpression "(2+" = none :=
  ⟨rfl, claim6_parse_failure_no_tree "(2+" "Unexpected end of expression" rfl⟩

/-- C7 counterexample: the claim says that for `"2.5(3)"` the digit pattern
of rules 3–4 does not match and no multiplication operator is inserted, so
the string would be left unchanged; in fact the Normalizer changes it. -/
theorem claim7_counterexample :
    preprocessExpression "2.5(3)" ≠ "2.5(3)" := by decide

/-- C7 amended: rules 3–4 match any plain ASCII digit run adjacent to a
parenthesis, including the fractional digits of a decimal numeral: on
`"2.5(3)"` the run `"5"` matches and a multiplication operator is
inserted, producing `"2.5 * (3)"`. -/
theorem claim7_decimal_rule_amended :
    preprocessExpression "2.5(3)" = "2.5 * (3)" := rfl

/-- C8: on input made only of the six bracket characters (so that no
digit-adjacency rule can trigger), the Normalizer is idempotent. -/
theorem claim8_normalizer_idempotent (s : String)
    (h : ∀ c ∈ s.toList, c ∈ ['(', ')', '{', '}', '[', ']']) :
    preprocessExpression (preprocessExpression s) = preprocessExpression s := by
  have h4 : ∀ c ∈ replaceChar ']' ')' (replaceChar '}' ')' (replaceChar '[' '('
      (replaceChar '{' '(' s.toList))), c = '(' ∨ c = ')' := by
    intro c hc
    simp only [replaceChar, List.mem_map] at hc
    obtain ⟨c3, ⟨c2, ⟨c1, ⟨c0, hc0, rfl⟩, rfl⟩, rfl⟩, rfl⟩ := hc
    have hb := h c0 hc0
    simp only [List.mem_cons, List.not_mem_nil, or_false] at hb
    rcases hb with rfl | rfl | rfl | rfl | rfl | rfl <;> decide
  have hnd : ∀ c ∈ replaceChar ']' ')' (replaceChar '}' ')' (replaceChar '[' '('
      (replaceChar '{' '(' s.toList))), isAsciiDigit c = false := by
    intro c hc
    rcases h4 c hc with rfl | rfl <;> decide
  have hfix : preprocessExpression s = String.mk (replaceChar ']' ')'
      (replaceChar '}' ')' (replaceChar '[' '(' (replaceChar '{' '(' s.toList)))) := by
    simp only [preprocessExpression]
    rw [insertMulAfterDigits_id _ hnd, insertMulAfterParen_id _ hnd,
      replaceChar_id '–' '-' _ (by intro c hc; rcases h4 c hc with rfl | rfl <;> decide)]
  rw [hfix]
  exact preprocess_fixes_paren_list _ h4

/-- Witness for C8: the all-bracket input `"{[()]}"` satisfies the
hypothesis and the theorem applied there gives idempotence. -/
theorem claim8_normalizer_idempotent_witness :
    (∀ c ∈ ("{[()]}" : String).toList, c ∈ ['(', ')', '{', '}', '[', ']']) ∧
    preprocessExpression (preprocessExpression "{[()]}") =
      preprocessExpression "{[()]}" :=
  ⟨by decide, claim8_normalizer_idempotent "{[()]}" (by decide)⟩

/-- C9: `parseExpression` is total at its interface — every input yields
either `none` or a tree, never an uncaught error; the unary input `"-5"`
yields `none`, and a single-operand operator node such as the one `mathjs`
builds for unary minus converts to a caught `TypeError`, not to a tree. -/
theorem claim9_parse_expression_total :
    (∀ s : String, parseExpression s = none ∨ ∃ t, parseExpression s = some t) ∧
    parseExpression "-5" = none ∧
    (∀ f : Bool, convertToTree (.operatorNode "-" (some [.constantNode 5])) f
      = .error .typeError) := by
  refine ⟨?_, rfl, fun f => rfl⟩
  intro s
  cases h : parseExpression s with
  | none => exact Or.inl rfl
  | some t => exact Or.inr ⟨t, rfl⟩

/-- C10: in every tree the Tree Converter produces, the `isSubExpression`
flag is downward monotone — below any node with the flag set, every node
has the flag set. -/
theorem claim10_flag_monotone (n : MathNode) (f : Bool) (t : TreeNode)
    (hok : convertToTree n f = .ok t) : flagMonotone t = true :=
  (convertToTree_flags n f t hok).1

/-- Witness for C10: the scenario-2 node graph converts to a concrete tree
and the theorem applied to it yields monotonicity of the flags. -/
theorem claim10_flag_monotone_witness :
    convertToTree (.operatorNode "*" (some [.constantNode 2,
        .parenthesisNode (some (.operatorNode "+" (some [.constantNode 3,
          .constantNode 4])))])) false
      = .ok (.mk "*" (some (.mk "2" none none false))
          (some (.mk "+" (some (.mk "3" none none true))
            (some (.mk "4" none none true)) true))
          false) ∧
    flagMonotone (.mk "*" (some (.mk "2" none none false))
      (some (.mk "+" (some (.mk "3" none none true))
        (some (.mk "4" none none true)) true))
      false) = true :=
  ⟨rfl, claim10_flag_monotone (.operatorNode "*" (some [.constantNode 2,
      .parenthesisNode (some (.operatorNode "+" (some [.constantNode 3,
        .constantNode 4])))])) false _ rfl⟩

end ParseTree
